import Mathlib

/-!
Verification of the bracket-balance scanners of this repository.

The repository contains four Python scripts built around the same idea:
scan a file's text and report unbalanced bracket characters.

* `check_brackets.py` : `count_brackets` (raw per-family tallies) and
  `find_bracket_position_issues` (three independent per-family stacks with
  line/column positions), plus a driver loop over files.
* `archived/unused-scripts/bracket-checkers/detailed_bracket_check.py` :
  `analyze_bracket_structure`, a single combined stack over all three
  families.  Its closing-bracket branch begins by evaluating
  `{')', ']', '}'}[ ... ]` — indexing a Python *set* with an integer —
  which raises `TypeError`; the surrounding `except Exception` turns that
  into a file-level ERROR entry.  We embed that exceptional control flow
  with `Except`.
* `final_bracket_check.py` : `check_file_detailed` (count-based critical
  issues plus informational line patterns) and a `main` whose process exit
  status is 0 exactly when no file has critical issues.

Python strings become `List Char`; file reading (`open`/`read`), which may
raise, becomes an `Except PyExn (List Char)` input; Python's `f.readlines()`
becomes `readlines`, `content.split('\n')` becomes `splitNl`.  Diagnostic
message strings become inductive types carrying exactly the data
interpolated into the message.  Stacks are Python lists with `append` at
the end and `pop` from the end, so push is `++ [x]` and pop is `dropLast`;
iterating a leftover stack visits oldest entries first, i.e. list order.
-/

/-- Python exceptions that the repository's code can observe: I/O and
decode failures from `open`/`read`, and the `TypeError` raised by
`detailed_bracket_check.py`'s set-subscript expression. -/
inductive PyExn where
  | ioError : PyExn
  | unicodeDecodeError : PyExn
  | typeErrorSetNotSubscriptable : PyExn
deriving DecidableEq

/-- The three bracket families handled by every scanner in the repo. -/
inductive Fam where
  | round : Fam
  | square : Fam
  | curly : Fam
deriving DecidableEq

/-- Opening character of a family. -/
def openCh : Fam → Char
  | .round => '('
  | .square => '['
  | .curly => '{'

/-- Closing character of a family. -/
def closeCh : Fam → Char
  | .round => ')'
  | .square => ']'
  | .curly => '}'

/-- The backtick character, written via its code point. -/
def backtickCh : Char := Char.ofNat 96

/-- The single-quote character, written via its code point. -/
def squoteCh : Char := Char.ofNat 39

/-- The double-quote character, written via its code point. -/
def dquoteCh : Char := Char.ofNat 34

/-- The backslash character, written via its code point. -/
def bslashCh : Char := Char.ofNat 92

/-- Embedding of Python's `f.readlines()`: split the character stream into
lines, each keeping its terminating newline; a final fragment without a
newline is kept as a last line. -/
def readlines : List Char → List (List Char)
  | [] => []
  | c :: rest =>
    if c = '\n' then ['\n'] :: readlines rest
    else
      match readlines rest with
      | [] => [[c]]
      | l :: ls => (c :: l) :: ls

/-- Embedding of Python's `content.split('\n')` (used by
`final_bracket_check.py`): newline separators are dropped and an empty
trailing fragment is kept, so the result is always nonempty. -/
def splitNl : List Char → List (List Char)
  | [] => [[]]
  | c :: rest =>
    if c = '\n' then [] :: splitNl rest
    else
      match splitNl rest with
      | [] => [[c]]
      | l :: ls => (c :: l) :: ls

/-- The diagnostics that `check_brackets.py`'s scanners can put into their
issue lists.  In Python these are formatted strings; the constructors carry
exactly the data interpolated into each message.  `mismatched` is the
message shape of `detailed_bracket_check.py`'s combined-stack scanner
(expected family, line of the pending open, actual character seen) — it is
included in the message space so that "this scanner never reports a
mismatch" is expressible; `find_bracket_position_issues` never produces it.
`errorRead` is the `ERROR: ...` string returned from the `except` branch. -/
inductive Diag where
  | unmatchedClose : Nat → Nat → Fam → Diag
  | unclosedOpen : Nat → Nat → Fam → Diag
  | mismatched : Nat → Nat → Fam → Nat → Char → Diag
  | errorRead : PyExn → Diag
deriving DecidableEq

/-- `true` exactly on `Diag.mismatched`. -/
def Diag.isMism : Diag → Bool
  | .mismatched _ _ _ _ _ => true
  | _ => false

/-- `true` exactly on `Diag.errorRead` (the file-read `ERROR:` message). -/
def Diag.isReadErr : Diag → Bool
  | .errorRead _ => true
  | _ => false

/-- The mutable state of `find_bracket_position_issues`' loop: one stack of
`(line_num, char_pos)` pairs per bracket family, plus the accumulated
issue list. -/
structure PosState where
  round_stack : List (Nat × Nat)
  square_stack : List (Nat × Nat)
  curly_stack : List (Nat × Nat)
  bracket_issues : List Diag
deriving DecidableEq

/-- The initial state of the scan: empty stacks, no issues. -/
def initPos : PosState := ⟨[], [], [], []⟩

/-- One character of `find_bracket_position_issues`' inner loop, a direct
transcription of its `if`/`elif` chain: openers are appended to their
family's stack; a closer pops its family's stack when nonempty and
otherwise appends an `Unmatched closing` issue; all other characters are
ignored. -/
def step (line_num char_pos : Nat) (c : Char) (s : PosState) : PosState :=
  if c = '(' then
    { s with round_stack := s.round_stack ++ [(line_num, char_pos)] }
  else if c = ')' then
    if s.round_stack ≠ [] then { s with round_stack := s.round_stack.dropLast }
    else { s with bracket_issues := s.bracket_issues ++ [Diag.unmatchedClose line_num char_pos Fam.round] }
  else if c = '[' then
    { s with square_stack := s.square_stack ++ [(line_num, char_pos)] }
  else if c = ']' then
    if s.square_stack ≠ [] then { s with square_stack := s.square_stack.dropLast }
    else { s with bracket_issues := s.bracket_issues ++ [Diag.unmatchedClose line_num char_pos Fam.square] }
  else if c = '{' then
    { s with curly_stack := s.curly_stack ++ [(line_num, char_pos)] }
  else if c = '}' then
    if s.curly_stack ≠ [] then { s with curly_stack := s.curly_stack.dropLast }
    else { s with bracket_issues := s.bracket_issues ++ [Diag.unmatchedClose line_num char_pos Fam.curly] }
  else s

/-- The nested `for line_num, line in enumerate(lines, 1): for char_pos,
char in enumerate(line)` loops visit exactly the `(line_num, char_pos,
char)` triples produced by `enumChars`/`enumLines`; the scan is the fold of
`step` over that sequence. -/
def scanChars (s : PosState) : List (Nat × Nat × Char) → PosState
  | [] => s
  | (ln, p, c) :: rest => scanChars (step ln p c s) rest

/-- Enumeration of one line's characters with their 0-based columns. -/
def enumChars (ln pos : Nat) : List Char → List (Nat × Nat × Char)
  | [] => []
  | c :: rest => (ln, pos, c) :: enumChars ln (pos + 1) rest

/-- Enumeration of all lines' characters, lines numbered from `ln`. -/
def enumLines (ln : Nat) : List (List Char) → List (Nat × Nat × Char)
  | [] => []
  | l :: rest => enumChars ln 0 l ++ enumLines (ln + 1) rest

/-- The state of `find_bracket_position_issues`' loop after scanning the
whole file (lines as produced by `readlines`, numbered from 1). -/
def posScanState (content : List Char) : PosState :=
  scanChars initPos (enumLines 1 (readlines content))

/-- The issue list built by `find_bracket_position_issues` on successfully
read content: the loop's issues, then `Unclosed opening` reports for every
entry left on the round, square and curly stacks, in that order, each stack
iterated oldest-first. -/
def positionIssues (content : List Char) : List Diag :=
  (posScanState content).bracket_issues
    ++ (posScanState content).round_stack.map (fun x => Diag.unclosedOpen x.1 x.2 Fam.round)
    ++ (posScanState content).square_stack.map (fun x => Diag.unclosedOpen x.1 x.2 Fam.square)
    ++ (posScanState content).curly_stack.map (fun x => Diag.unclosedOpen x.1 x.2 Fam.curly)

/-- `find_bracket_position_issues(file_path)` from `check_brackets.py`.
The `open`/`readlines` call is modelled by the `Except` input; the
`except Exception` branch returns the single `ERROR: ...` entry.  The loop
body itself performs no throwing operation. -/
def find_bracket_position_issues : Except PyExn (List Char) → List Diag
  | .error e => [Diag.errorRead e]
  | .ok content => positionIssues content

/-- The issue strings produced by `count_brackets` in `check_brackets.py`,
as an inductive carrying the interpolated data: the three per-family
open/close tallies, the odd backtick total, and the
`ERROR reading file: ...` message of the `except` branch. -/
inductive CBIssue where
  | roundCount : Nat → Nat → CBIssue
  | squareCount : Nat → Nat → CBIssue
  | curlyCount : Nat → Nat → CBIssue
  | oddBackticks : Nat → CBIssue
  | errorReading : PyExn → CBIssue
deriving DecidableEq

/-- `true` exactly on the three per-family count-mismatch issues. -/
def CBIssue.isFamCount : CBIssue → Bool
  | .roundCount _ _ => true
  | .squareCount _ _ => true
  | .curlyCount _ _ => true
  | _ => false

/-- `true` exactly on `CBIssue.errorReading`. -/
def CBIssue.isReadErr : CBIssue → Bool
  | .errorReading _ => true
  | _ => false

/-- The issue list built by `count_brackets` on successfully read content:
four conditional appends, in source order. -/
def countIssues (content : List Char) : List CBIssue :=
  (if content.count '(' ≠ content.count ')' then
    [CBIssue.roundCount (content.count '(') (content.count ')')] else [])
  ++ (if content.count '[' ≠ content.count ']' then
    [CBIssue.squareCount (content.count '[') (content.count ']')] else [])
  ++ (if content.count '{' ≠ content.count '}' then
    [CBIssue.curlyCount (content.count '{') (content.count '}')] else [])
  ++ (if content.count backtickCh % 2 ≠ 0 then
    [CBIssue.oddBackticks (content.count backtickCh)] else [])

/-- `count_brackets(file_path)` from `check_brackets.py`, with the
`open`/`read` call modelled by the `Except` input. -/
def count_brackets : Except PyExn (List Char) → List CBIssue
  | .error e => [CBIssue.errorReading e]
  | .ok content => countIssues content

/-- The per-file record assembled by `check_brackets.py`'s driver loop:
`basic_issues = count_brackets(f)` and
`position_issues = find_bracket_position_issues(f)`. -/
structure FileReport where
  basic : List CBIssue
  positions : List Diag
deriving DecidableEq

/-- Processing of one file by `check_brackets.py`'s driver loop. -/
def process_file (r : Except PyExn (List Char)) : FileReport :=
  ⟨count_brackets r, find_bracket_position_issues r⟩

/-- `check_brackets.py`'s driver loop over the discovered files (file
discovery itself is out of scope; the loop body depends only on each
file's content). -/
def process_files (files : List (Except PyExn (List Char))) : List FileReport :=
  files.map process_file

/-- A file is printed as `OK` exactly when both of its issue lists are
empty (`if basic_issues or position_issues` takes the problem branch). -/
def fileOk (rep : FileReport) : Bool :=
  rep.basic.isEmpty && rep.positions.isEmpty

/-! ## Embedding of `detailed_bracket_check.py`'s `analyze_bracket_structure` -/

/-- Python's `str.strip()` whitespace test for the characters that can
occur here. -/
def isPySpace (c : Char) : Bool :=
  c = ' ' ∨ c = '\t' ∨ c = '\n' ∨ c = '\x0d' ∨ c = '\x0b' ∨ c = '\x0c'

/-- Python's `line.strip()`. -/
def pyStrip (l : List Char) : List Char :=
  (l.dropWhile isPySpace).reverse.dropWhile isPySpace |>.reverse

/-- The `context` snippet stored with each pushed bracket:
`line.strip()[:50] + '...' if len(line.strip()) > 50 else line.strip()`. -/
def ctxOf (line : List Char) : List Char :=
  if 50 < (pyStrip line).length then (pyStrip line).take 50 ++ "...".toList
  else pyStrip line

/-- An entry of `analyze_bracket_structure`'s combined `bracket_stack`:
the dict `{'char': .., 'line': .., 'pos': .., 'context': ..}`. -/
structure DOpen where
  c : Char
  line : Nat
  pos : Nat
  context : List Char
deriving DecidableEq

/-- The `issue` strings of `analyze_bracket_structure`, with the data they
interpolate.  `unmatchedK`/`mismatchK` document the closing-bracket
branch's intended messages; that branch first evaluates a set-subscript
expression that raises `TypeError`, so they are unreachable in the source
as written.  `errK` is the `ERROR: ...` entry built by the `except`
branch. -/
inductive DKind where
  | unmatchedK : Char → DKind
  | mismatchK : Char → Nat → Char → DKind
  | unclosedK : Char → DKind
  | backtickOddK : Nat → DKind
  | errK : PyExn → DKind
deriving DecidableEq

/-- One `line_issues` entry: Python fills `line`/`pos` with the strings
`'multiple'`, `'various'` or `'N/A'` in the non-positional cases, modelled
by `none`. -/
structure DIssue where
  line : Option Nat
  pos : Option Nat
  kind : DKind
  context : List Char
deriving DecidableEq

/-- The combined-stack scanner's loop state. -/
structure DState where
  bracket_stack : List DOpen
  line_issues : List DIssue
deriving DecidableEq

/-- One character of `analyze_bracket_structure`'s loop.  Openers push a
record (with the current line's context snippet).  The closing-bracket
branch begins with `expected = {')', ']', '}'}[...]`, which indexes a set
with an integer and raises `TypeError` unconditionally, so the rest of that
branch is unreachable; the embedding raises at that point. -/
def dstep (ln p : Nat) (ctx : List Char) (c : Char) (st : DState) : Except PyExn DState :=
  if c = '(' ∨ c = '[' ∨ c = '{' then
    .ok { st with bracket_stack := st.bracket_stack ++ [⟨c, ln, p, ctx⟩] }
  else if c = ')' ∨ c = ']' ∨ c = '}' then
    .error PyExn.typeErrorSetNotSubscriptable
  else .ok st

/-- The inner loop of `analyze_bracket_structure` over one line. -/
def dScanLine (ln : Nat) (ctx : List Char) (pos : Nat) (st : DState) :
    List Char → Except PyExn DState
  | [] => .ok st
  | c :: rest => do dScanLine ln ctx (pos + 1) (← dstep ln pos ctx c st) rest

/-- The outer loop of `analyze_bracket_structure` over all lines.  The
context snippet is the same value for every push within one line, so it is
computed once per line. -/
def dScanLines (ln : Nat) (st : DState) : List (List Char) → Except PyExn DState
  | [] => .ok st
  | l :: rest => do dScanLines (ln + 1) (← dScanLine ln (ctxOf l) 0 st l) rest

/-- The `total_brackets` dict of `analyze_bracket_structure`'s result. -/
structure TotalBrackets where
  round : Nat × Nat
  square : Nat × Nat
  curly : Nat × Nat
  backticks : Nat
deriving DecidableEq

/-- The result dict of `analyze_bracket_structure` (the `file` path entry
is just the argument echoed back and is omitted): `total_brackets` is
`none` in the `except` branch, where `issues` is the single
`ERROR: ...` entry with `'N/A'` positions and context `File read error`. -/
structure AnalyzeResult where
  issues : List DIssue
  total_brackets : Option TotalBrackets
deriving DecidableEq

/-- The `except Exception` branch's result. -/
def errAnalyze (e : PyExn) : AnalyzeResult :=
  ⟨[⟨none, none, DKind.errK e, "File read error".toList⟩], none⟩

/-- `analyze_bracket_structure(filepath)` from `detailed_bracket_check.py`.
The file read is the `Except` input; the in-scan `TypeError` is caught by
the same `except Exception`.  On normal completion: loop issues, then
`Unclosed` entries for the leftover combined stack oldest-first, then the
odd-backtick entry (positions `'multiple'`/`'various'`), and the raw
tallies. -/
def analyze_bracket_structure (r : Except PyExn (List Char)) : AnalyzeResult :=
  match r with
  | .error e => errAnalyze e
  | .ok content =>
    match dScanLines 1 ⟨[], []⟩ (readlines content) with
    | .error e => errAnalyze e
    | .ok st =>
      ⟨st.line_issues
        ++ st.bracket_stack.map (fun o => ⟨some o.line, some o.pos, DKind.unclosedK o.c, o.context⟩)
        ++ (if content.count backtickCh % 2 ≠ 0 then
          [⟨none, none, DKind.backtickOddK (content.count backtickCh),
            "Check template string literals".toList⟩] else []),
       some ⟨(content.count '(', content.count ')'),
             (content.count '[', content.count ']'),
             (content.count '{', content.count '}'),
             content.count backtickCh⟩⟩

/-! ## Embedding of `final_bracket_check.py` -/

/-- The `critical_issues` strings of `check_file_detailed`. -/
inductive FbcIssue where
  | roundMm : Nat → Nat → FbcIssue
  | squareMm : Nat → Nat → FbcIssue
  | curlyMm : Nat → Nat → FbcIssue
  | backtickMm : Nat → FbcIssue
  | fileError : PyExn → FbcIssue
deriving DecidableEq

/-- The informational pattern strings of `check_file_detailed`. -/
inductive FbcPattern where
  | manyClosers : Nat → FbcPattern
  | oddSingleQuotes : Nat → FbcPattern
  | oddDoubleQuotes : Nat → FbcPattern
deriving DecidableEq

/-- `true` on the closers of the regex class `[)\x5d}]`. -/
def isCloserCh (c : Char) : Bool :=
  c = ')' ∨ c = ']' ∨ c = '}'

/-- `re.search(r'[)\x5d}]{4,}', line)`: some run of at least 4 consecutive
closing brackets; `k` is the length of the current run. -/
def run4 (k : Nat) : List Char → Bool
  | [] => false
  | c :: rest =>
    if isCloserCh c then (if 4 ≤ k + 1 then true else run4 (k + 1) rest)
    else run4 0 rest

/-- Python's `line.count(pat)` for a two-character pattern `[a, b]`
(non-overlapping left-to-right occurrences). -/
def count2 (a b : Char) : List Char → Nat
  | x :: y :: rest =>
    if x = a ∧ y = b then 1 + count2 a b rest else count2 a b (y :: rest)
  | _ => 0

/-- The per-line informational patterns, in source order: the
consecutive-closers regex, then single-quote parity, then double-quote
parity.  The quote tallies are Python ints
(`line.count(q) - line.count(backslash + q)`), so the parity test uses
`Int` with Python's nonnegative `%`. -/
def linePatterns (ln : Nat) (line : List Char) : List FbcPattern :=
  (if run4 0 line then [FbcPattern.manyClosers ln] else [])
  ++ (if ((line.count squoteCh : Int) - (count2 bslashCh squoteCh line : Int)) % 2 ≠ 0 then
    [FbcPattern.oddSingleQuotes ln] else [])
  ++ (if ((line.count dquoteCh : Int) - (count2 bslashCh dquoteCh line : Int)) % 2 ≠ 0 then
    [FbcPattern.oddDoubleQuotes ln] else [])

/-- The pattern loop over `enumerate(lines, 1)`. -/
def allPatterns (ln : Nat) : List (List Char) → List FbcPattern
  | [] => []
  | l :: rest => linePatterns ln l ++ allPatterns (ln + 1) rest

/-- The `bracket_counts` dict of `check_file_detailed` (`none` in the
`except` branch). -/
structure FbcCounts where
  round : Nat × Nat
  square : Nat × Nat
  curly : Nat × Nat
  backticks : Nat
deriving DecidableEq

/-- The result dict of `check_file_detailed` (the `filepath` entry is the
argument echoed back and is omitted). -/
structure FbcResult where
  critical_issues : List FbcIssue
  info_patterns : List FbcPattern
  bracket_counts : Option FbcCounts
deriving DecidableEq

/-- `check_file_detailed(filepath)` from `final_bracket_check.py`: raw
count criticals in source order, then the per-line informational patterns
over `content.split('\n')`; the `except` branch yields the single
`FILE ERROR` critical. -/
def check_file_detailed : Except PyExn (List Char) → FbcResult
  | .error e => ⟨[FbcIssue.fileError e], [], none⟩
  | .ok content =>
    ⟨(if content.count '(' ≠ content.count ')' then
        [FbcIssue.roundMm (content.count '(') (content.count ')')] else [])
      ++ (if content.count '[' ≠ content.count ']' then
        [FbcIssue.squareMm (content.count '[') (content.count ']')] else [])
      ++ (if content.count '{' ≠ content.count '}' then
        [FbcIssue.curlyMm (content.count '{') (content.count '}')] else [])
      ++ (if content.count backtickCh % 2 ≠ 0 then
        [FbcIssue.backtickMm (content.count backtickCh)] else []),
     allPatterns 1 (splitNl content),
     some ⟨(content.count '(', content.count ')'),
           (content.count '[', content.count ']'),
           (content.count '{', content.count '}'),
           content.count backtickCh⟩⟩

/-- `main` of `final_bracket_check.py` returns `True` exactly when no
scanned file has critical issues (sorting by path only reorders the
reports and is omitted; it cannot affect this). -/
def fbc_main (files : List (Except PyExn (List Char))) : Bool :=
  ((files.map check_file_detailed).filter
    (fun r => !r.critical_issues.isEmpty)).isEmpty

/-- The process exit status: `exit(0 if success else 1)`. -/
def fbc_exit (files : List (Except PyExn (List Char))) : Nat :=
  if fbc_main files then 0 else 1

/-! ## Vocabulary for stating the properties -/

/-- The stack of a given family inside a `PosState`. -/
def stackOf : Fam → PosState → List (Nat × Nat)
  | .round, s => s.round_stack
  | .square, s => s.square_stack
  | .curly, s => s.curly_stack

/-- Number of entries on a family's stack. -/
def stackLen (f : Fam) (s : PosState) : Nat := (stackOf f s).length

/-- Number of `Unmatched closing` issues of a given family in a list. -/
def unmCt (f : Fam) (l : List Diag) : Nat :=
  (l.filter fun d =>
    match d with
    | Diag.unmatchedClose _ _ f' => f' = f
    | _ => false).length

/-- The position a diagnostic reports (read errors carry none; they are
mapped to `(0, 0)`). -/
def dpos : Diag → Nat × Nat
  | .unmatchedClose l p _ => (l, p)
  | .unclosedOpen l p _ => (l, p)
  | .mismatched l p _ _ _ => (l, p)
  | .errorRead _ => (0, 0)

/-- Strict document order on `(line, column)` positions. -/
def docLt (a b : Nat × Nat) : Prop :=
  a.1 < b.1 ∨ (a.1 = b.1 ∧ a.2 < b.2)

/-- Reflexive document order. -/
def docLe (a b : Nat × Nat) : Prop :=
  a.1 < b.1 ∨ (a.1 = b.1 ∧ a.2 ≤ b.2)

/-- The character of the file sitting at 1-based line `l`, 0-based column
`p`, given the file's physical lines; out-of-range positions default to a
space (which is no bracket character). -/
def charAt (lines : List (List Char)) (l p : Nat) : Char :=
  (lines.getD (l - 1) []).getD p ' '

/-- The position component of an enumerated character triple. -/
def posOf (x : Nat × Nat × Char) : Nat × Nat := (x.1, x.2.1)

/-- The character component of an enumerated character triple. -/
def tchar (x : Nat × Nat × Char) : Char := x.2.2

/-- A bracket family is independently balanced in a character sequence:
no prefix has more closers than openers, and the totals agree.  The prefix
condition is stated for cutoffs up to the length (longer cutoffs give the
whole list).  This is the hypothesis of claim C9, stated from its words. -/
def famBalanced (f : Fam) (cs : List Char) : Prop :=
  (∀ n, n ≤ cs.length →
    (cs.take n).count (closeCh f) ≤ (cs.take n).count (openCh f))
  ∧ cs.count (closeCh f) = cs.count (openCh f)

instance (f : Fam) (cs : List Char) : Decidable (famBalanced f cs) := by
  unfold famBalanced
  infer_instance

/-- The scan-loop invariant: every family stack lists strictly
document-ordered positions, each before the cursor and holding that
family's opening character in the file; every accumulated issue is an
`Unmatched closing` whose reported position is before the cursor and holds
that family's closing character; issue positions are strictly
document-ordered; all recorded line numbers are at least 1. -/
def ScanInv (L : List (List Char)) (cur : Nat × Nat) (s : PosState) : Prop :=
  (∀ f : Fam,
    List.Pairwise docLt (stackOf f s) ∧
    ∀ x ∈ stackOf f s, docLt x cur ∧ 1 ≤ x.1 ∧ charAt L x.1 x.2 = openCh f)
  ∧ List.Pairwise docLt (s.bracket_issues.map dpos)
  ∧ ∀ d ∈ s.bracket_issues, ∃ l p f, d = Diag.unmatchedClose l p f ∧
      docLt (l, p) cur ∧ 1 ≤ l ∧ charAt L l p = closeCh f

/-! ## Basic facts about the embedding's plumbing -/

lemma readlines_flatten : ∀ cs : List Char, (readlines cs).flatten = cs := by
  intro cs
  induction cs with
  | nil => rfl
  | cons c rest ih =>
    unfold readlines
    by_cases h : c = '\n'
    · simp [h, List.flatten_cons, ih]
    · simp only [if_neg h]
      cases hr : readlines rest with
      | nil =>
        rw [hr] at ih
        simp at ih
        simp [ih.symm, List.flatten_cons]
      | cons l ls =>
        rw [hr] at ih
        simp only [List.flatten_cons] at ih ⊢
        simp [ih]

lemma map_tchar_enumChars : ∀ (l : List Char) (ln pos : Nat),
    (enumChars ln pos l).map tchar = l := by
  intro l
  induction l with
  | nil => intro ln pos; rfl
  | cons c rest ih => intro ln pos; simp [enumChars, tchar, ih]

lemma map_tchar_enumLines : ∀ (ls : List (List Char)) (ln : Nat),
    (enumLines ln ls).map tchar = ls.flatten := by
  intro ls
  induction ls with
  | nil => intro ln; rfl
  | cons l rest ih =>
    intro ln
    simp [enumLines, List.flatten_cons, map_tchar_enumChars, ih]

lemma docLt_trans {a b c : Nat × Nat} (h1 : docLt a b) (h2 : docLt b c) : docLt a c := by
  unfold docLt at *
  omega

lemma docLt_of_lt_of_le {a b c : Nat × Nat} (h1 : docLt a b) (h2 : docLe b c) : docLt a c := by
  unfold docLt docLe at *
  omega

lemma docLe_refl (a : Nat × Nat) : docLe a a := by
  unfold docLe
  omega

lemma docLt_succ_le {q r : Nat × Nat} (h : docLt q r) : docLe (q.1, q.2 + 1) r := by
  unfold docLt docLe at *
  dsimp only
  omega

lemma docLt_succ (q : Nat × Nat) : docLt q (q.1, q.2 + 1) := by
  unfold docLt
  dsimp only
  omega

lemma unmCt_append (f : Fam) (l1 l2 : List Diag) :
    unmCt f (l1 ++ l2) = unmCt f l1 + unmCt f l2 := by
  simp [unmCt, List.filter_append]

/-- Effect of one scan step on a family's stack depth and unmatched-close
tally: a closer either pops (depth down one) or records an unmatched
close; an opener pushes; other characters change nothing. -/
lemma step_spec (ln p : Nat) (c : Char) (s : PosState) (f : Fam) :
    stackLen f (step ln p c s) + (if c = closeCh f then 1 else 0) + unmCt f s.bracket_issues
      = stackLen f s + (if c = openCh f then 1 else 0) + unmCt f (step ln p c s).bracket_issues := by
  unfold step
  split_ifs with h1 h2 h3 h4 h5 h6 h7 h8 h9 <;> cases f <;>
    simp_all [stackLen, stackOf, unmCt_append, unmCt, openCh, closeCh,
      List.length_dropLast] <;>
    first
      | omega
      | exact Nat.sub_add_cancel (List.length_pos.mpr (by assumption))

/-- A scan step never removes issues: it appends at most one. -/
lemma step_issues_grow (ln p : Nat) (c : Char) (s : PosState) :
    ∃ t, (step ln p c s).bracket_issues = s.bracket_issues ++ t := by
  unfold step
  split_ifs <;> first | exact ⟨[], (List.append_nil _).symm⟩ | exact ⟨_, rfl⟩

/-- Conservation law of the whole scan, per family: final depth plus
closers seen plus previously recorded unmatched closes equals initial
depth plus openers seen plus the final unmatched-close tally. -/
lemma scanChars_count (f : Fam) : ∀ (pcs : List (Nat × Nat × Char)) (s : PosState),
    stackLen f (scanChars s pcs) + (pcs.map tchar).count (closeCh f) + unmCt f s.bracket_issues
      = stackLen f s + (pcs.map tchar).count (openCh f)
        + unmCt f (scanChars s pcs).bracket_issues := by
  intro pcs
  induction pcs with
  | nil => intro s; simp [scanChars]
  | cons x rest ih =>
    intro s
    obtain ⟨ln, p, c⟩ := x
    have h1 := step_spec ln p c s f
    have h2 := ih (step ln p c s)
    simp only [scanChars, List.map_cons, List.count_cons, beq_iff_eq, tchar] at h2 ⊢
    by_cases hc : c = closeCh f <;> by_cases ho : c = openCh f
    · exact absurd (ho.symm.trans hc) (by cases f <;> decide)
    · simp only [if_pos hc, if_neg ho] at h1 ⊢
      omega
    · simp only [if_neg hc, if_pos ho] at h1 ⊢
      omega
    · simp only [if_neg hc, if_neg ho] at h1 ⊢
      omega

/-- If every prefix of the remaining characters closes no more brackets of
a family than the family's current stack depth plus its openers in that
prefix, then the scan emits no further issue and the final depths are
determined by the raw counts. -/
lemma scanChars_balanced : ∀ (pcs : List (Nat × Nat × Char)) (s : PosState),
    (∀ (f : Fam) (n : Nat), ((pcs.map tchar).take n).count (closeCh f)
        ≤ stackLen f s + ((pcs.map tchar).take n).count (openCh f)) →
    (scanChars s pcs).bracket_issues = s.bracket_issues ∧
    ∀ f, stackLen f (scanChars s pcs) + (pcs.map tchar).count (closeCh f)
        = stackLen f s + (pcs.map tchar).count (openCh f) := by
  intro pcs
  induction pcs with
  | nil => intro s _; exact ⟨rfl, fun f => by simp [scanChars]⟩
  | cons x rest ih =>
    intro s h
    obtain ⟨ln, p, c⟩ := x
    have hne : ∀ f : Fam, c = closeCh f → stackOf f s ≠ [] := by
      intro f hc
      have h1 := h f 1
      simp only [List.map_cons, List.take_succ_cons, List.take_zero, List.count_cons,
        List.count_nil, beq_iff_eq, tchar, Nat.zero_add] at h1
      have hno : c ≠ openCh f := fun ho => absurd (ho.symm.trans hc) (by cases f <;> decide)
      rw [if_pos hc, if_neg hno] at h1
      intro hnil
      simp [stackLen, hnil] at h1
    have hiss : (step ln p c s).bracket_issues = s.bracket_issues := by
      unfold step
      split_ifs with h1 h2 h3 h4 h5 h6 h7 h8 h9
      · rfl
      · rfl
      · exact absurd (hne Fam.round h2) h3
      · rfl
      · rfl
      · exact absurd (hne Fam.square h5) h6
      · rfl
      · rfl
      · exact absurd (hne Fam.curly h8) h9
      · rfl
    have hlen : ∀ f : Fam, stackLen f (step ln p c s) + (if c = closeCh f then 1 else 0)
        = stackLen f s + (if c = openCh f then 1 else 0) := by
      intro f
      have h1 := step_spec ln p c s f
      rw [hiss] at h1
      omega
    have hrest : ∀ (f : Fam) (n : Nat), ((rest.map tchar).take n).count (closeCh f)
        ≤ stackLen f (step ln p c s) + ((rest.map tchar).take n).count (openCh f) := by
      intro f n
      have h1 := h f (n + 1)
      simp only [List.map_cons, List.take_succ_cons, List.count_cons, beq_iff_eq, tchar] at h1
      have h2 := hlen f
      by_cases hc : c = closeCh f <;> by_cases ho : c = openCh f
      · exact absurd (ho.symm.trans hc) (by cases f <;> decide)
      · simp only [if_pos hc, if_neg ho] at h1 h2
        omega
      · simp only [if_neg hc, if_pos ho] at h1 h2
        omega
      · simp only [if_neg hc, if_neg ho] at h1 h2
        omega
    obtain ⟨ih1, ih2⟩ := ih (step ln p c s) hrest
    constructor
    · simp only [scanChars]
      rw [ih1, hiss]
    · intro f
      have h2 := ih2 f
      have h3 := hlen f
      simp only [scanChars, List.map_cons, List.count_cons, beq_iff_eq, tchar]
      by_cases hc : c = closeCh f <;> by_cases ho : c = openCh f
      · exact absurd (ho.symm.trans hc) (by cases f <;> decide)
      · simp only [if_pos hc, if_neg ho] at h3 ⊢
        omega
      · simp only [if_neg hc, if_pos ho] at h3 ⊢
        omega
      · simp only [if_neg hc, if_neg ho] at h3 ⊢
        omega

lemma stackOf_round (s : PosState) : stackOf Fam.round s = s.round_stack := rfl

lemma stackOf_square (s : PosState) : stackOf Fam.square s = s.square_stack := rfl

lemma stackOf_curly (s : PosState) : stackOf Fam.curly s = s.curly_stack := rfl

lemma stackLen_init (f : Fam) : stackLen f initPos = 0 := by
  cases f <;> rfl

lemma chars_of_scan (content : List Char) :
    (enumLines 1 (readlines content)).map tchar = content := by
  rw [map_tchar_enumLines, readlines_flatten]

/-- A family-wise balanced character sequence drives the scan to an empty
issue list and empty stacks. -/
lemma balanced_no_issues (content : List Char) (h : ∀ f, famBalanced f content) :
    positionIssues content = [] := by
  have hb : ∀ (f : Fam) (n : Nat),
      (((enumLines 1 (readlines content)).map tchar).take n).count (closeCh f)
        ≤ stackLen f initPos
          + (((enumLines 1 (readlines content)).map tchar).take n).count (openCh f) := by
    intro f n
    rw [chars_of_scan, stackLen_init]
    by_cases hn : n ≤ content.length
    · have := (h f).1 n hn
      omega
    · rw [List.take_of_length_le (by omega)]
      have := (h f).2
      omega
  obtain ⟨hi, hl⟩ := scanChars_balanced (enumLines 1 (readlines content)) initPos hb
  have hst : ∀ f, stackOf f (posScanState content) = [] := by
    intro f
    have h2 := hl f
    rw [chars_of_scan] at h2
    have h3 := (h f).2
    have h4 := stackLen_init f
    have h5 : stackLen f (posScanState content) = 0 := by
      unfold posScanState
      omega
    exact List.length_eq_zero.mp h5
  have h1 : (posScanState content).bracket_issues = [] := hi
  have hr := hst Fam.round
  have hs := hst Fam.square
  have hc := hst Fam.curly
  rw [stackOf_round] at hr
  rw [stackOf_square] at hs
  rw [stackOf_curly] at hc
  unfold positionIssues
  rw [h1, hr, hs, hc]
  rfl

/-- An empty output of the positional scan forces empty loop issues and
empty final stacks (the unclosed reports are a suffix of the output). -/
lemma output_empty_parts (content : List Char) (h : positionIssues content = []) :
    (posScanState content).bracket_issues = [] ∧
    (posScanState content).round_stack = [] ∧
    (posScanState content).square_stack = [] ∧
    (posScanState content).curly_stack = [] := by
  unfold positionIssues at h
  simp only [List.append_eq_nil, List.map_eq_nil_iff] at h
  exact ⟨h.1.1.1, h.1.1.2, h.1.2, h.2⟩

/-- C5: if the scan of a file produces no diagnostics — neither positional
issues nor raw-count issues — then the final scan state has all three
family stacks empty and the backtick tally is even: the acceptance
condition for a balanced file. -/
theorem balanced_acceptance (content : List Char)
    (h1 : find_bracket_position_issues (Except.ok content) = [])
    (h2 : count_brackets (Except.ok content) = []) :
    ((posScanState content).round_stack = [] ∧
     (posScanState content).square_stack = [] ∧
     (posScanState content).curly_stack = []) ∧
    List.count backtickCh content % 2 = 0 := by
  have hp : positionIssues content = [] := h1
  obtain ⟨_, hr, hs, hc⟩ := output_empty_parts content hp
  refine ⟨⟨hr, hs, hc⟩, ?_⟩
  have hc2 : countIssues content = [] := h2
  unfold countIssues at hc2
  simp only [List.append_eq_nil] at hc2
  have h4 := hc2.2
  by_cases hb : List.count backtickCh content % 2 ≠ 0
  · rw [if_pos hb] at h4
    cases h4
  · omega

/-- Witness for C5 at the concrete balanced input `"()"`. -/
theorem balanced_acceptance_witness :
    find_bracket_position_issues (Except.ok ['(', ')']) = [] ∧
    count_brackets (Except.ok ['(', ')']) = [] ∧
    (((posScanState ['(', ')']).round_stack = [] ∧
      (posScanState ['(', ')']).square_stack = [] ∧
      (posScanState ['(', ')']).curly_stack = []) ∧
     List.count backtickCh ['(', ')'] % 2 = 0) :=
  ⟨by decide, by decide, balanced_acceptance ['(', ')'] (by decide) (by decide)⟩

/-- The string of n openers followed by n closers is family-wise
balanced. -/
lemma repBalanced (n : Nat) :
    ∀ f : Fam, famBalanced f (List.replicate n '(' ++ List.replicate n ')') := by
  intro f
  constructor
  · intro k _
    rw [List.take_append_eq_append_take, List.take_replicate, List.take_replicate,
      List.length_replicate]
    cases f <;>
      simp [closeCh, openCh, List.count_append, List.count_replicate]
  · cases f <;> simp [closeCh, openCh, List.count_append, List.count_replicate]

/-- C6: scanning n opening round brackets followed by n closing round
brackets yields no diagnostics from either scanner of
`check_brackets.py`, and the reported raw round-bracket tallies are
`(n, n)`. -/
theorem nested_round_balanced (n : Nat) :
    find_bracket_position_issues
        (Except.ok (List.replicate n '(' ++ List.replicate n ')')) = [] ∧
    count_brackets (Except.ok (List.replicate n '(' ++ List.replicate n ')')) = [] ∧
    (check_file_detailed
        (Except.ok (List.replicate n '(' ++ List.replicate n ')'))).bracket_counts
      = some ⟨(n, n), (0, 0), (0, 0), 0⟩ := by
  refine ⟨balanced_no_issues _ (repBalanced n), ?_, ?_⟩
  · show countIssues _ = []
    unfold countIssues
    simp [List.count_append, List.count_replicate, backtickCh]
  · unfold check_file_detailed
    simp [List.count_append, List.count_replicate, backtickCh]

/-- C10: an empty positional-scan output forces equal open/close raw
counts for every bracket family, so `count_brackets` can only report the
backtick-parity issue — the raw count pre-check is subsumed by the
positional scan for bracket families. -/
theorem positional_subsumes_counts (content : List Char)
    (h : find_bracket_position_issues (Except.ok content) = []) :
    (content.count '(' = content.count ')' ∧
     content.count '[' = content.count ']' ∧
     content.count '{' = content.count '}') ∧
    ∀ i ∈ count_brackets (Except.ok content), i.isFamCount = false := by
  obtain ⟨hi, hr, hs, hc⟩ := output_empty_parts content h
  have key : ∀ f : Fam, content.count (closeCh f) = content.count (openCh f) := by
    intro f
    have h1 := scanChars_count f (enumLines 1 (readlines content)) initPos
    rw [chars_of_scan] at h1
    rw [show scanChars initPos (enumLines 1 (readlines content)) = posScanState content
      from rfl] at h1
    have h2 : stackLen f (posScanState content) = 0 := by
      cases f <;> simp [stackLen, stackOf, hr, hs, hc]
    have h3 : unmCt f (posScanState content).bracket_issues = 0 := by
      rw [hi]
      rfl
    have h4 : unmCt f initPos.bracket_issues = 0 := rfl
    have h5 := stackLen_init f
    omega
  have e1 := (key Fam.round).symm
  have e2 := (key Fam.square).symm
  have e3 := (key Fam.curly).symm
  refine ⟨⟨e1, e2, e3⟩, ?_⟩
  intro i hi2
  rw [show count_brackets (Except.ok content) = countIssues content from rfl] at hi2
  unfold countIssues at hi2
  rw [if_neg (show ¬content.count '(' ≠ content.count ')' from fun hh => hh e1),
    if_neg (show ¬content.count '[' ≠ content.count ']' from fun hh => hh e2),
    if_neg (show ¬content.count '{' ≠ content.count '}' from fun hh => hh e3)] at hi2
  by_cases hb : content.count backtickCh % 2 ≠ 0
  · rw [if_pos hb] at hi2
    simp at hi2
    rw [hi2]
    rfl
  · rw [if_neg hb] at hi2
    simp at hi2

/-- Witness for C10 at the input consisting of a single backtick: the
positional scan is silent, all family counts agree, and the only
`count_brackets` issue is the backtick one, which is not a family-count
issue. -/
theorem positional_subsumes_counts_witness :
    find_bracket_position_issues (Except.ok [backtickCh]) = [] ∧
    count_brackets (Except.ok [backtickCh]) = [CBIssue.oddBackticks 1] ∧
    ((List.count '(' [backtickCh] = List.count ')' [backtickCh] ∧
      List.count '[' [backtickCh] = List.count ']' [backtickCh] ∧
      List.count '{' [backtickCh] = List.count '}' [backtickCh]) ∧
     ∀ i ∈ count_brackets (Except.ok [backtickCh]), i.isFamCount = false) :=
  ⟨by decide, by decide, positional_subsumes_counts [backtickCh] (by decide)⟩

lemma docLe_of_docLt {a b : Nat × Nat} (h : docLt a b) : docLe a b := by
  unfold docLt docLe at *
  omega

/-- Weakening the cursor bound of the scan invariant. -/
lemma scanInv_mono {L : List (List Char)} {cur next : Nat × Nat} {s : PosState}
    (hle : docLe cur next) (h : ScanInv L cur s) : ScanInv L next s := by
  obtain ⟨hstk, hiss, hshape⟩ := h
  refine ⟨fun f => ⟨(hstk f).1, fun x hx => ?_⟩, hiss, fun d hd => ?_⟩
  · obtain ⟨ha, hb, hc⟩ := (hstk f).2 x hx
    exact ⟨docLt_of_lt_of_le ha hle, hb, hc⟩
  · obtain ⟨l, p, f, h1, h2, h3, h4⟩ := hshape d hd
    exact ⟨l, p, f, h1, docLt_of_lt_of_le h2 hle, h3, h4⟩

lemma pairwise_push {l : List (Nat × Nat)} {cur : Nat × Nat}
    (hp : List.Pairwise docLt l) (hb : ∀ x ∈ l, docLt x cur) :
    List.Pairwise docLt (l ++ [cur]) := by
  rw [List.pairwise_append]
  refine ⟨hp, List.pairwise_singleton _ _, fun a ha b hb2 => ?_⟩
  rw [List.mem_singleton] at hb2
  subst hb2
  exact hb a ha

lemma issues_pos_bound {L : List (List Char)} {cur : Nat × Nat} {s : PosState}
    (h : ScanInv L cur s) : ∀ x ∈ s.bracket_issues.map dpos, docLt x cur := by
  intro x hx
  rw [List.mem_map] at hx
  obtain ⟨d, hd, rfl⟩ := hx
  obtain ⟨l, p, f, rfl, h2, _, _⟩ := h.2.2 d hd
  exact h2

/-- Invariant preservation when a family's stack is pushed. -/
lemma scanInv_push (L : List (List Char)) (cur next : Nat × Nat) (s s' : PosState) (f : Fam)
    (hlt : docLt cur next) (hln : 1 ≤ cur.1) (hch : charAt L cur.1 cur.2 = openCh f)
    (hf : stackOf f s' = stackOf f s ++ [(cur.1, cur.2)])
    (hg : ∀ g : Fam, g ≠ f → stackOf g s' = stackOf g s)
    (hi : s'.bracket_issues = s.bracket_issues)
    (h : ScanInv L cur s) : ScanInv L next s' := by
  obtain ⟨hstk, hiss, hshape⟩ := h
  refine ⟨fun g => ?_, by rw [hi]; exact hiss, fun d hd => ?_⟩
  · by_cases hgf : g = f
    · subst hgf
      rw [hf]
      refine ⟨pairwise_push (hstk g).1 (fun x hx => ((hstk g).2 x hx).1), fun x hx => ?_⟩
      rcases List.mem_append.mp hx with hx | hx
      · obtain ⟨ha, hb, hcc⟩ := (hstk g).2 x hx
        exact ⟨docLt_trans ha hlt, hb, hcc⟩
      · rw [List.mem_singleton] at hx
        subst hx
        exact ⟨hlt, hln, hch⟩
    · rw [hg g hgf]
      refine ⟨(hstk g).1, fun x hx => ?_⟩
      obtain ⟨ha, hb, hcc⟩ := (hstk g).2 x hx
      exact ⟨docLt_trans ha hlt, hb, hcc⟩
  · rw [hi] at hd
    obtain ⟨l, p, ff, rfl, h2, h3, h4⟩ := hshape d hd
    exact ⟨l, p, ff, rfl, docLt_trans h2 hlt, h3, h4⟩

/-- Invariant preservation when a family's stack is popped. -/
lemma scanInv_pop (L : List (List Char)) (cur next : Nat × Nat) (s s' : PosState) (f : Fam)
    (hlt : docLt cur next)
    (hf : stackOf f s' = (stackOf f s).dropLast)
    (hg : ∀ g : Fam, g ≠ f → stackOf g s' = stackOf g s)
    (hi : s'.bracket_issues = s.bracket_issues)
    (h : ScanInv L cur s) : ScanInv L next s' := by
  obtain ⟨hstk, hiss, hshape⟩ := h
  refine ⟨fun g => ?_, by rw [hi]; exact hiss, fun d hd => ?_⟩
  · by_cases hgf : g = f
    · subst hgf
      rw [hf]
      refine ⟨List.Pairwise.sublist (List.dropLast_sublist _) (hstk g).1, fun x hx => ?_⟩
      obtain ⟨ha, hb, hcc⟩ := (hstk g).2 x ((List.dropLast_sublist _).subset hx)
      exact ⟨docLt_trans ha hlt, hb, hcc⟩
    · rw [hg g hgf]
      refine ⟨(hstk g).1, fun x hx => ?_⟩
      obtain ⟨ha, hb, hcc⟩ := (hstk g).2 x hx
      exact ⟨docLt_trans ha hlt, hb, hcc⟩
  · rw [hi] at hd
    obtain ⟨l, p, ff, rfl, h2, h3, h4⟩ := hshape d hd
    exact ⟨l, p, ff, rfl, docLt_trans h2 hlt, h3, h4⟩

/-- Invariant preservation when an unmatched-close issue is recorded. -/
lemma scanInv_issue (L : List (List Char)) (cur next : Nat × Nat) (s s' : PosState) (f : Fam)
    (hlt : docLt cur next) (hln : 1 ≤ cur.1) (hch : charAt L cur.1 cur.2 = closeCh f)
    (hg : ∀ g : Fam, stackOf g s' = stackOf g s)
    (hi : s'.bracket_issues = s.bracket_issues ++ [Diag.unmatchedClose cur.1 cur.2 f])
    (h : ScanInv L cur s) : ScanInv L next s' := by
  obtain ⟨hstk, hiss, hshape⟩ := h
  refine ⟨fun g => ?_, ?_, fun d hd => ?_⟩
  · rw [hg g]
    refine ⟨(hstk g).1, fun x hx => ?_⟩
    obtain ⟨ha, hb, hcc⟩ := (hstk g).2 x hx
    exact ⟨docLt_trans ha hlt, hb, hcc⟩
  · rw [hi, List.map_append]
    exact pairwise_push hiss (issues_pos_bound ⟨hstk, hiss, hshape⟩)
  · rw [hi] at hd
    rcases List.mem_append.mp hd with hd | hd
    · obtain ⟨l, p, ff, rfl, h2, h3, h4⟩ := hshape d hd
      exact ⟨l, p, ff, rfl, docLt_trans h2 hlt, h3, h4⟩
    · rw [List.mem_singleton] at hd
      subst hd
      exact ⟨cur.1, cur.2, f, rfl, hlt, hln, hch⟩

/-- One-step preservation of the scan invariant. -/
lemma scanInv_step (L : List (List Char)) (cur next : Nat × Nat) (c : Char) (s : PosState)
    (hlt : docLt cur next) (hc : charAt L cur.1 cur.2 = c) (hln : 1 ≤ cur.1)
    (h : ScanInv L cur s) : ScanInv L next (step cur.1 cur.2 c s) := by
  unfold step
  split_ifs with h1 h2 h3 h4 h5 h6 h7 h8 h9
  · exact scanInv_push L cur next s _ Fam.round hlt hln (hc.trans h1) rfl
      (fun g hgne => by cases g <;> first | exact absurd rfl hgne | rfl) rfl h
  · exact scanInv_pop L cur next s _ Fam.round hlt rfl
      (fun g hgne => by cases g <;> first | exact absurd rfl hgne | rfl) rfl h
  · exact scanInv_issue L cur next s _ Fam.round hlt hln (hc.trans h2)
      (fun g => by cases g <;> rfl) rfl h
  · exact scanInv_push L cur next s _ Fam.square hlt hln (hc.trans h4) rfl
      (fun g hgne => by cases g <;> first | exact absurd rfl hgne | rfl) rfl h
  · exact scanInv_pop L cur next s _ Fam.square hlt rfl
      (fun g hgne => by cases g <;> first | exact absurd rfl hgne | rfl) rfl h
  · exact scanInv_issue L cur next s _ Fam.square hlt hln (hc.trans h5)
      (fun g => by cases g <;> rfl) rfl h
  · exact scanInv_push L cur next s _ Fam.curly hlt hln (hc.trans h7) rfl
      (fun g hgne => by cases g <;> first | exact absurd rfl hgne | rfl) rfl h
  · exact scanInv_pop L cur next s _ Fam.curly hlt rfl
      (fun g hgne => by cases g <;> first | exact absurd rfl hgne | rfl) rfl h
  · exact scanInv_issue L cur next s _ Fam.curly hlt hln (hc.trans h8)
      (fun g => by cases g <;> rfl) rfl h
  · exact scanInv_mono (docLe_of_docLt hlt) h

/-- The scan invariant survives scanning any strictly document-ordered,
correctly pointed character enumeration. -/
lemma scanInv_chars (L : List (List Char)) :
    ∀ (pcs : List (Nat × Nat × Char)) (cur : Nat × Nat) (s : PosState),
    ScanInv L cur s →
    (∀ x ∈ pcs, docLe cur (posOf x)) →
    List.Pairwise docLt (pcs.map posOf) →
    (∀ x ∈ pcs, charAt L x.1 x.2.1 = tchar x) →
    (∀ x ∈ pcs, 1 ≤ x.1) →
    ∃ cur2, ScanInv L cur2 (scanChars s pcs) := by
  intro pcs
  induction pcs with
  | nil => intro cur s h _ _ _ _; exact ⟨cur, h⟩
  | cons x rest ih =>
    intro cur s h hle hpw hch hln
    obtain ⟨ln, p, c⟩ := x
    have hq : ScanInv L (ln, p) s :=
      scanInv_mono (hle _ (List.mem_cons_self _ _)) h
    have hstep : ScanInv L (ln, p + 1) (step ln p c s) :=
      scanInv_step L (ln, p) (ln, p + 1) c s (docLt_succ (ln, p))
        (hch _ (List.mem_cons_self _ _)) (hln _ (List.mem_cons_self _ _)) hq
    simp only [List.map_cons] at hpw
    have hpair := List.pairwise_cons.mp hpw
    show ∃ cur2, ScanInv L cur2 (scanChars (step ln p c s) rest)
    refine ih (ln, p + 1) (step ln p c s) hstep ?_ hpair.2 ?_ ?_
    · intro y hy
      have hlt : docLt (posOf (ln, p, c)) (posOf y) :=
        hpair.1 (posOf y) (List.mem_map_of_mem posOf hy)
      exact docLt_succ_le hlt
    · intro y hy
      exact hch y (List.mem_cons_of_mem _ hy)
    · intro y hy
      exact hln y (List.mem_cons_of_mem _ hy)

lemma enumChars_mem : ∀ (l : List Char) (ln pos : Nat) (x : Nat × Nat × Char),
    x ∈ enumChars ln pos l →
    x.1 = ln ∧ pos ≤ x.2.1 ∧ x.2.1 < pos + l.length ∧ l.getD (x.2.1 - pos) ' ' = x.2.2 := by
  intro l
  induction l with
  | nil => intro ln pos x hx; cases hx
  | cons c rest ih =>
    intro ln pos x hx
    rw [enumChars] at hx
    rcases List.mem_cons.mp hx with rfl | hx
    · refine ⟨rfl, Nat.le_refl _, by simp, ?_⟩
      simp
    · obtain ⟨e1, e2, e3, e4⟩ := ih ln (pos + 1) x hx
      refine ⟨e1, by omega, by simp only [List.length_cons]; omega, ?_⟩
      have hsub : x.2.1 - pos = (x.2.1 - (pos + 1)) + 1 := by omega
      rw [hsub, List.getD_cons_succ]
      exact e4

lemma enumLines_mem : ∀ (ls : List (List Char)) (ln : Nat) (x : Nat × Nat × Char),
    x ∈ enumLines ln ls →
    ∃ i, i < ls.length ∧ x.1 = ln + i ∧ x.2.1 < (ls.getD i []).length ∧
      (ls.getD i []).getD x.2.1 ' ' = x.2.2 := by
  intro ls
  induction ls with
  | nil => intro ln x hx; cases hx
  | cons l rest ih =>
    intro ln x hx
    rw [enumLines] at hx
    rcases List.mem_append.mp hx with hx | hx
    · obtain ⟨e1, e2, e3, e4⟩ := enumChars_mem l ln 0 x hx
      refine ⟨0, by simp, by omega, by simpa using e3, by simpa using e4⟩
    · obtain ⟨i, e1, e2, e3, e4⟩ := ih (ln + 1) x hx
      exact ⟨i + 1, by simpa using e1, by omega, by simpa using e3, by simpa using e4⟩

lemma enumChars_posOf_mem (l : List Char) (ln pos : Nat) (x : Nat × Nat × Char)
    (hx : x ∈ enumChars ln pos l) : x.1 = ln ∧ pos ≤ x.2.1 :=
  ⟨(enumChars_mem l ln pos x hx).1, (enumChars_mem l ln pos x hx).2.1⟩

lemma enumChars_pairwise : ∀ (l : List Char) (ln pos : Nat),
    List.Pairwise docLt ((enumChars ln pos l).map posOf) := by
  intro l
  induction l with
  | nil => intro ln pos; exact List.Pairwise.nil
  | cons c rest ih =>
    intro ln pos
    rw [enumChars, List.map_cons, List.pairwise_cons]
    refine ⟨fun y hy => ?_, ih ln (pos + 1)⟩
    rw [List.mem_map] at hy
    obtain ⟨z, hz, rfl⟩ := hy
    obtain ⟨e1, e2⟩ := enumChars_posOf_mem rest ln (pos + 1) z hz
    dsimp only [docLt, posOf]
    omega

lemma enumLines_line_lb (ls : List (List Char)) (ln : Nat) (x : Nat × Nat × Char)
    (hx : x ∈ enumLines ln ls) : ln ≤ x.1 := by
  obtain ⟨i, _, e2, _, _⟩ := enumLines_mem ls ln x hx
  omega

lemma enumLines_pairwise : ∀ (ls : List (List Char)) (ln : Nat),
    List.Pairwise docLt ((enumLines ln ls).map posOf) := by
  intro ls
  induction ls with
  | nil => intro ln; exact List.Pairwise.nil
  | cons l rest ih =>
    intro ln
    rw [enumLines, List.map_append, List.pairwise_append]
    refine ⟨enumChars_pairwise l ln 0, ih (ln + 1), fun a ha b hb => ?_⟩
    rw [List.mem_map] at ha hb
    obtain ⟨y, hy, rfl⟩ := ha
    obtain ⟨z, hz, rfl⟩ := hb
    have e1 := (enumChars_posOf_mem l ln 0 y hy).1
    have e2 := enumLines_line_lb rest (ln + 1) z hz
    dsimp only [docLt, posOf]
    omega

/-- The scan invariant holds of the final state of the positional scan. -/
lemma final_inv (content : List Char) :
    ∃ cur, ScanInv (readlines content) cur (posScanState content) := by
  apply scanInv_chars (readlines content) (enumLines 1 (readlines content)) (0, 0) initPos
  · refine ⟨fun f => ?_, List.Pairwise.nil, fun d hd => absurd hd (List.not_mem_nil d)⟩
    cases f <;> exact ⟨List.Pairwise.nil, fun x hx => absurd hx (List.not_mem_nil x)⟩
  · intro x hx
    have e := enumLines_line_lb (readlines content) 1 x hx
    dsimp only [docLe, posOf]
    omega
  · exact enumLines_pairwise _ 1
  · intro x hx
    obtain ⟨i, _, e2, _, e4⟩ := enumLines_mem _ 1 x hx
    unfold charAt tchar
    have hsub : x.1 - 1 = i := by omega
    rw [hsub]
    exact e4
  · intro x hx
    have := enumLines_line_lb _ 1 x hx
    omega

/-- Every diagnostic the positional scan emits is an unmatched close or an
unclosed open whose reported position holds the corresponding character. -/
lemma output_shape (content : List Char) :
    ∀ d ∈ positionIssues content,
      (∃ l p f, d = Diag.unmatchedClose l p f ∧ 1 ≤ l ∧
        charAt (readlines content) l p = closeCh f) ∨
      (∃ l p f, d = Diag.unclosedOpen l p f ∧ 1 ≤ l ∧
        charAt (readlines content) l p = openCh f) := by
  obtain ⟨cur, hstk, hiss, hshape⟩ := final_inv content
  intro d hd
  unfold positionIssues at hd
  rcases List.mem_append.mp hd with hd | hd
  · rcases List.mem_append.mp hd with hd | hd
    · rcases List.mem_append.mp hd with hd | hd
      · left
        obtain ⟨l, p, f, rfl, _, h3, h4⟩ := hshape d hd
        exact ⟨l, p, f, rfl, h3, h4⟩
      · right
        rw [List.mem_map] at hd
        obtain ⟨x, hx, rfl⟩ := hd
        obtain ⟨_, hb, hcc⟩ := (hstk Fam.round).2 x hx
        exact ⟨x.1, x.2, Fam.round, rfl, hb, hcc⟩
    · right
      rw [List.mem_map] at hd
      obtain ⟨x, hx, rfl⟩ := hd
      obtain ⟨_, hb, hcc⟩ := (hstk Fam.square).2 x hx
      exact ⟨x.1, x.2, Fam.square, rfl, hb, hcc⟩
  · right
    rw [List.mem_map] at hd
    obtain ⟨x, hx, rfl⟩ := hd
    obtain ⟨_, hb, hcc⟩ := (hstk Fam.curly).2 x hx
    exact ⟨x.1, x.2, Fam.curly, rfl, hb, hcc⟩

/-- The loop issues and the three leftover stacks are each strictly
document-ordered. -/
lemma output_sorted (content : List Char) :
    List.Pairwise docLt ((posScanState content).bracket_issues.map dpos) ∧
    List.Pairwise docLt (posScanState content).round_stack ∧
    List.Pairwise docLt (posScanState content).square_stack ∧
    List.Pairwise docLt (posScanState content).curly_stack := by
  obtain ⟨cur, hstk, hiss, _⟩ := final_inv content
  exact ⟨hiss, (hstk Fam.round).1, (hstk Fam.square).1, (hstk Fam.curly).1⟩

lemma map_dpos_unclosed (f : Fam) (l : List (Nat × Nat)) :
    ((l.map (fun x => Diag.unclosedOpen x.1 x.2 f)).map dpos) = l := by
  rw [List.map_map]
  have hcomp : (dpos ∘ fun x : Nat × Nat => Diag.unclosedOpen x.1 x.2 f) = id := by
    funext x
    rfl
  rw [hcomp, List.map_id]

/-- C3 (counterexample): on the input `"[("` the square opener at column 0
precedes the round opener at column 1 in the document, yet the scan
reports the round one first — end-of-scan reports are grouped by family,
not emitted in global document order. -/
theorem unclosed_report_order_cx :
    find_bracket_position_issues (Except.ok ['[', '(']) =
      [Diag.unclosedOpen 1 1 Fam.round, Diag.unclosedOpen 1 0 Fam.square] ∧
    docLt (dpos (Diag.unclosedOpen 1 0 Fam.square)) (dpos (Diag.unclosedOpen 1 1 Fam.round)) := by
  constructor
  · decide
  · dsimp only [docLt, dpos]
    omega

/-- C3 (amended): the scan output is the pass-time diagnostics — all
unmatched closes, in document (encounter) order — followed by the
unclosed-open reports grouped by family in the fixed order round, square,
curly, each group in document order (oldest pushed first). -/
theorem unclosed_report_order (content : List Char) :
    ∃ a b c d : List Diag,
      find_bracket_position_issues (Except.ok content) = a ++ b ++ c ++ d ∧
      ((∀ x ∈ a, ∃ l p f, x = Diag.unmatchedClose l p f) ∧
        List.Pairwise docLt (a.map dpos)) ∧
      ((∀ x ∈ b, ∃ l p, x = Diag.unclosedOpen l p Fam.round) ∧
        List.Pairwise docLt (b.map dpos)) ∧
      ((∀ x ∈ c, ∃ l p, x = Diag.unclosedOpen l p Fam.square) ∧
        List.Pairwise docLt (c.map dpos)) ∧
      ((∀ x ∈ d, ∃ l p, x = Diag.unclosedOpen l p Fam.curly) ∧
        List.Pairwise docLt (d.map dpos)) := by
  obtain ⟨hiss, hr, hs, hc⟩ := output_sorted content
  obtain ⟨cur, hstk, _, hshape⟩ := final_inv content
  refine ⟨(posScanState content).bracket_issues,
    (posScanState content).round_stack.map (fun x => Diag.unclosedOpen x.1 x.2 Fam.round),
    (posScanState content).square_stack.map (fun x => Diag.unclosedOpen x.1 x.2 Fam.square),
    (posScanState content).curly_stack.map (fun x => Diag.unclosedOpen x.1 x.2 Fam.curly),
    ?_, ⟨?_, hiss⟩, ⟨?_, ?_⟩, ⟨?_, ?_⟩, ⟨?_, ?_⟩⟩
  · rfl
  · intro x hx
    obtain ⟨l, p, f, rfl, _, _, _⟩ := hshape x hx
    exact ⟨l, p, f, rfl⟩
  · intro x hx
    rw [List.mem_map] at hx
    obtain ⟨y, _, rfl⟩ := hx
    exact ⟨y.1, y.2, rfl⟩
  · rw [map_dpos_unclosed]
    exact hr
  · intro x hx
    rw [List.mem_map] at hx
    obtain ⟨y, _, rfl⟩ := hx
    exact ⟨y.1, y.2, rfl⟩
  · rw [map_dpos_unclosed]
    exact hs
  · intro x hx
    rw [List.mem_map] at hx
    obtain ⟨y, _, rfl⟩ := hx
    exact ⟨y.1, y.2, rfl⟩
  · rw [map_dpos_unclosed]
    exact hc

/-- C7: every positional diagnostic of the scan reports the 1-based line
on which the offending character physically occurs and its 0-based column
within that line: the reported position is in range of the file's lines
and the character found there is exactly the diagnostic's bracket
character (the family's closer for an unmatched close, its opener for an
unclosed open). -/
theorem position_correctness (content : List Char) (d : Diag)
    (hd : d ∈ find_bracket_position_issues (Except.ok content)) (l p : Nat) (f : Fam) :
    (d = Diag.unmatchedClose l p f →
      1 ≤ l ∧ l - 1 < (readlines content).length ∧
      p < ((readlines content).getD (l - 1) []).length ∧
      charAt (readlines content) l p = closeCh f) ∧
    (d = Diag.unclosedOpen l p f →
      1 ≤ l ∧ l - 1 < (readlines content).length ∧
      p < ((readlines content).getD (l - 1) []).length ∧
      charAt (readlines content) l p = openCh f) := by
  have hsh := output_shape content d hd
  constructor
  · rintro rfl
    rcases hsh with ⟨l', p', f', heq, h3, h4⟩ | ⟨l', p', f', heq, h3, h4⟩
    · obtain ⟨rfl, rfl, rfl⟩ := Diag.unmatchedClose.inj heq
      have hb1 : l - 1 < (readlines content).length := by
        by_contra hb
        push_neg at hb
        simp only [charAt] at h4
        rw [List.getD_eq_default _ _ hb, List.getD_nil] at h4
        exact absurd h4 (by cases f <;> decide)
      have hb2 : p < ((readlines content).getD (l - 1) []).length := by
        by_contra hb
        push_neg at hb
        simp only [charAt] at h4
        rw [List.getD_eq_default _ _ hb] at h4
        exact absurd h4 (by cases f <;> decide)
      exact ⟨h3, hb1, hb2, h4⟩
    · exact absurd heq (by simp)
  · rintro rfl
    rcases hsh with ⟨l', p', f', heq, h3, h4⟩ | ⟨l', p', f', heq, h3, h4⟩
    · exact absurd heq (by simp)
    · obtain ⟨rfl, rfl, rfl⟩ := Diag.unclosedOpen.inj heq
      have hb1 : l - 1 < (readlines content).length := by
        by_contra hb
        push_neg at hb
        simp only [charAt] at h4
        rw [List.getD_eq_default _ _ hb, List.getD_nil] at h4
        exact absurd h4 (by cases f <;> decide)
      have hb2 : p < ((readlines content).getD (l - 1) []).length := by
        by_contra hb
        push_neg at hb
        simp only [charAt] at h4
        rw [List.getD_eq_default _ _ hb] at h4
        exact absurd h4 (by cases f <;> decide)
      exact ⟨h3, hb1, hb2, h4⟩

/-- Witness for C7 at the input `")"` and its single diagnostic. -/
theorem position_correctness_witness :
    Diag.unmatchedClose 1 0 Fam.round ∈ find_bracket_position_issues (Except.ok [')']) ∧
    charAt (readlines [')']) 1 0 = closeCh Fam.round :=
  ⟨by decide,
    ((position_correctness [')'] (Diag.unmatchedClose 1 0 Fam.round) (by decide)
      1 0 Fam.round).1 rfl).2.2.2⟩

/-- C9: the per-family scan of `check_brackets.py` is silent on every
input whose three bracket families are each independently balanced —
including cross-family interleavings such as `"([)]"` — and it never
emits a mismatch diagnostic on any input. -/
theorem independent_family_scan (content : List Char) :
    ((∀ f, famBalanced f content) → find_bracket_position_issues (Except.ok content) = []) ∧
    ∀ d ∈ find_bracket_position_issues (Except.ok content), d.isMism = false := by
  constructor
  · intro h
    exact balanced_no_issues content h
  · intro d hd
    rcases output_shape content d hd with ⟨l, p, f, rfl, _, _⟩ | ⟨l, p, f, rfl, _, _⟩ <;> rfl

/-- Witness for C9 at the interleaved but family-wise balanced input
`"([)]"`. -/
theorem independent_family_scan_witness :
    (∀ f, famBalanced f ['(', '[', ')', ']']) ∧
    find_bracket_position_issues (Except.ok ['(', '[', ')', ']']) = [] :=
  ⟨fun f => by cases f <;> decide,
    (independent_family_scan ['(', '[', ')', ']']).1 (fun f => by cases f <;> decide)⟩

/-- C1 (divergence at the input `"(]"`): `find_bracket_position_issues`
produces two diagnostics — an unmatched close of the square family at
column 1, then an unclosed round open at column 0 — and no `Mismatched`
diagnostic; `analyze_bracket_structure`, whose combined stack is the
design that would report the mismatch, instead raises `TypeError` at the
`]` (set indexed with an integer) and returns the catch-all ERROR result
with no bracket diagnostics at all. -/
theorem mismatch_input_behavior :
    find_bracket_position_issues (Except.ok ['(', ']']) =
      [Diag.unmatchedClose 1 1 Fam.square, Diag.unclosedOpen 1 0 Fam.round] ∧
    analyze_bracket_structure (Except.ok ['(', ']']) =
      errAnalyze PyExn.typeErrorSetNotSubscriptable := by
  constructor
  · decide
  · rfl

/-- C2 (divergence at the input `")"`): the combined-stack scanner's loop
raises `TypeError` on any closing bracket, and the function reports the
malformed-bracket input as a scanner ERROR result, while the per-family
scanner returns the ordinary unmatched-close diagnostic for the same
input. -/
theorem scan_totality_behavior :
    dScanLines 1 ⟨[], []⟩ (readlines [')'])
      = Except.error PyExn.typeErrorSetNotSubscriptable ∧
    analyze_bracket_structure (Except.ok [')'])
      = errAnalyze PyExn.typeErrorSetNotSubscriptable ∧
    find_bracket_position_issues (Except.ok [')']) = [Diag.unmatchedClose 1 0 Fam.round] := by
  refine ⟨rfl, rfl, by decide⟩

/-- C4: a file whose read or decode fails is reported with the dedicated
read-error issues — constructors distinct from every bracket diagnostic —
is marked not-OK rather than balanced, and the driver processes every
file independently of the others, so one failing file aborts nothing. -/
theorem file_read_error_isolated (files : List (Except PyExn (List Char))) (i : Nat) (e : PyExn)
    (h : files[i]? = some (Except.error e)) :
    (process_files files)[i]? = some ⟨[CBIssue.errorReading e], [Diag.errorRead e]⟩ ∧
    fileOk ⟨[CBIssue.errorReading e], [Diag.errorRead e]⟩ = false ∧
    CBIssue.isReadErr (CBIssue.errorReading e) = true ∧
    CBIssue.isFamCount (CBIssue.errorReading e) = false ∧
    Diag.isReadErr (Diag.errorRead e) = true ∧
    Diag.isMism (Diag.errorRead e) = false ∧
    (process_files files).length = files.length ∧
    ∀ j : Nat, (process_files files)[j]? = (files[j]?).map process_file := by
  refine ⟨?_, rfl, rfl, rfl, rfl, rfl, ?_, ?_⟩
  · unfold process_files
    rw [List.getElem?_map, h]
    rfl
  · simp [process_files]
  · intro j
    unfold process_files
    rw [List.getElem?_map]

/-- Witness for C4: a two-file run in which the first file fails to read
and the second is scanned normally. -/
theorem file_read_error_isolated_witness :
    ([Except.error PyExn.ioError, Except.ok ['(', ')']] :
        List (Except PyExn (List Char)))[0]? = some (Except.error PyExn.ioError) ∧
    (process_files [Except.error PyExn.ioError, Except.ok ['(', ')']])[0]?
      = some ⟨[CBIssue.errorReading PyExn.ioError], [Diag.errorRead PyExn.ioError]⟩ :=
  ⟨rfl, (file_read_error_isolated [Except.error PyExn.ioError, Except.ok ['(', ')']]
    0 PyExn.ioError rfl).1⟩

/-- C8: the overall run of `final_bracket_check.py` exits with nonzero
status exactly when some scanned file produced a critical issue (a read
error or a bracket-count issue); with none, the status is 0. -/
theorem exit_status_iff (files : List (Except PyExn (List Char))) :
    fbc_exit files ≠ 0 ↔ ∃ r ∈ files, (check_file_detailed r).critical_issues ≠ [] := by
  have key : fbc_main files = true ↔
      ∀ r ∈ files, (check_file_detailed r).critical_issues = [] := by
    unfold fbc_main
    rw [List.isEmpty_iff, List.filter_eq_nil_iff]
    constructor
    · intro h r hr
      have := h (check_file_detailed r) (List.mem_map_of_mem _ hr)
      simpa using this
    · intro h x hx
      rw [List.mem_map] at hx
      obtain ⟨r, hr, rfl⟩ := hx
      simp [h r hr]
  unfold fbc_exit
  split_ifs with hmain
  · constructor
    · intro h0
      exact absurd rfl h0
    · rintro ⟨r, hr, hne⟩
      exact absurd (key.mp hmain r hr) hne
  · constructor
    · intro _
      by_contra hno
      push_neg at hno
      exact hmain (key.mpr hno)
    · intro _
      exact Nat.one_ne_zero
